import Mathlib

/-!
Shallow embedding of the algorithmic core of the local music player:
the lyric timeline normalizer and gap-insertion pass, the active-line
sync engine, the per-character fill renderer, the spectrum peak-hold
decay, and the global brightness handling of the particle layers.

Numbers that the program manipulates as floating point are modelled as
rationals; all the constants involved (0.1, 2.0, 5.0, 0.95, 0.5, 0.85,
1.5, 0.05, 10.0, 13.0, 15.0) are exactly representable in binary or
appear only through comparisons that the rational model answers the
same way on the inputs considered here.
-/

namespace MusicPlayer

/-- A lyric line as in `LyricLine`: a start time in seconds, the text,
and an optional duration (absent before normalization). -/
structure LyricLine where
  time : ℚ
  text : String
  duration : Option ℚ
deriving DecidableEq

/-- Default line used to totalize list indexing. -/
def defaultLine : LyricLine := ⟨0, "", none⟩

/-- JS `x || dflt` on an optional numeric field: `undefined` and `0`
are falsy, any other number is kept. -/
def jsOrDefault (d : Option ℚ) (dflt : ℚ) : ℚ :=
  match d with
  | none => dflt
  | some x => if x = 0 then dflt else x

/-- Duration computed for a non-last line in `normalizeLyrics`:
`duration = nextStart - line.time`, replaced by `MIN_DURATION = 2.0`
when `!duration || duration <= 0.1`; over the rationals the falsiness
test `!duration` (true exactly at 0) is subsumed by `duration <= 0.1`. -/
def normDur (t nextT : ℚ) : ℚ :=
  if nextT - t ≤ 1/10 then 2 else nextT - t

/-- The sync-engine normalization pass `normalizeLyrics`: the last line
gets `line.duration || LAST_DEFAULT` with `LAST_DEFAULT = 5.0`; every
other line gets its duration re-derived from the next line's start. -/
def normalizeLyrics : List LyricLine → List LyricLine
  | [] => []
  | [l] => [⟨l.time, l.text, some (jsOrDefault l.duration 5)⟩]
  | l :: next :: rest =>
      ⟨l.time, l.text, some (normDur l.time next.time)⟩ :: normalizeLyrics (next :: rest)

/-- A raw timestamped line as produced by the `.lrc` parsing stage,
before durations exist. -/
structure RawLine where
  time : ℚ
  text : String
deriving DecidableEq

/-- The duration/gap-insertion loop of `parseLrc` in `App.tsx`: the raw
gap to the next line becomes the duration (5.0 for the last line);
if the gap exceeds 10.0 the line is truncated to `gap - 2.0` and a
synthetic `"•••"` line of duration 2.0 is inserted after it. -/
def insertGaps : List RawLine → List LyricLine
  | [] => []
  | [l] => [⟨l.time, l.text, some 5⟩]
  | l :: next :: rest =>
      if 10 < next.time - l.time then
        ⟨l.time, l.text, some (next.time - l.time - 2)⟩ ::
        ⟨l.time + (next.time - l.time - 2), "•••", some 2⟩ :: insertGaps (next :: rest)
      else
        ⟨l.time, l.text, some (next.time - l.time)⟩ :: insertGaps (next :: rest)

/-- Line at index `i`, defaulting outside the list. -/
def lineAt (M : List LyricLine) (i : ℕ) : LyricLine := M.getD i defaultLine

/-- Start time of the line at index `i`. -/
def timeAt (M : List LyricLine) (i : ℕ) : ℚ := (lineAt M i).time

/-- Duration of the line at index `i` (0 when absent). -/
def durAt (M : List LyricLine) (i : ℕ) : ℚ := ((lineAt M i).duration).getD 0

/-- The active-line test of `LyricsView`:
`currentTime >= l.time && currentTime < l.time + (l.duration || 3)`. -/
def lineActive (T : ℚ) (l : LyricLine) : Bool :=
  decide (l.time ≤ T) && decide (T < l.time + jsOrDefault l.duration 3)

/-- JS `Array.prototype.findIndex`: index of the first match, `-1` when
no element matches. -/
def jsFindIndex (p : LyricLine → Bool) : List LyricLine → ℤ
  | [] => -1
  | l :: ls =>
      if p l then 0
      else if jsFindIndex p ls = -1 then -1 else jsFindIndex p ls + 1

/-- The `activeIndex` of `LyricsView`: `findIndex` of the active-line test
over the normalized lyrics (`fixedLyrics`). -/
def activeIndexZ (lyrics : List LyricLine) (T : ℚ) : ℤ :=
  jsFindIndex (lineActive T) (normalizeLyrics lyrics)

/-- The `isPast` prop of line `i`: `i < activeIndex`. -/
def isPastOf (i : ℕ) (a : ℤ) : Bool := decide ((i : ℤ) < a)

/-- The `isActive` prop of line `i`: `i === activeIndex`. -/
def isActiveOf (i : ℕ) (a : ℤ) : Bool := decide ((i : ℤ) = a)

/-- The `distance` prop of line `i`: `Math.abs(i - activeIndex)`. -/
def distanceOf (i : ℕ) (a : ℤ) : ℤ := |(i : ℤ) - a|

/-- Blur of a line row: 0 when active, else `min(8, distance * 1.5)`. -/
def blurOf (act : Bool) (d : ℤ) : ℚ := if act then 0 else min 8 ((d : ℚ) * (3/2))

/-- Scale of a line row: 1.05 when active, else
`max(0.85, 1 - distance * 0.05)`. -/
def scaleOf (act : Bool) (d : ℤ) : ℚ :=
  if act then 21/20 else max (17/20) (1 - (d : ℚ) * (1/20))

/-- The quantity `elapsed = Math.max(0, currentTime - line.time)` in `LyricLineRow`. -/
def elapsedOf (T time : ℚ) : ℚ := max 0 (T - time)

/-- The quantity `fillDuration = Math.max(0.5, duration * 0.85)` where
`duration = line.duration || 3`. -/
def fillDurationOf (d : Option ℚ) : ℚ := max (1/2) (jsOrDefault d 3 * (17/20))

/-- The quantity `progress = Math.min(1, elapsed / fillDuration)`. -/
def progressOf (T time : ℚ) (d : Option ℚ) : ℚ :=
  min 1 (elapsedOf T time / fillDurationOf d)

/-- Per-character fill of character `i` among `n`:
`percent = Math.max(0, Math.min(1, progress * totalChars - idx))`. -/
def charFillPercent (T time : ℚ) (d : Option ℚ) (n i : ℕ) : ℚ :=
  max 0 (min 1 (progressOf T time d * n - i))

/-- One peak-hold update of the spectrum renderer: the stored peak is
replaced by the bar height when the height exceeds it, otherwise it is
multiplied by 0.95 and then lowered by 0.5. -/
def peakStep (h p : ℚ) : ℚ := if p < h then h else p * (19/20) - 1/2

/-- Stored peak after frame `k` for the scenario of a bar of height `H`
at frame 0 (starting from the initial stored peak 0) and height 0 at
every later frame. -/
def peakSeq (H : ℚ) : ℕ → ℚ
  | 0 => peakStep H 0
  | k + 1 => peakStep 0 (peakSeq H k)

/-- The compositing alpha installed at the start of a tick:
`ctx.globalAlpha = Math.min(1, Math.max(0, brightness))`. -/
def clampBrightness (b : ℚ) : ℚ := min 1 (max 0 b)

/-- Alpha installed for one firework particle draw:
`ctx.globalAlpha = p.alpha * brightness` (raw brightness). -/
def fireworkDrawAlpha (b a : ℚ) : ℚ := a * b

/-- Alpha restored after a firework particle draw:
`ctx.globalAlpha = brightness` (raw brightness). -/
def fireworkResetAlpha (b : ℚ) : ℚ := b

/-- Alpha installed for one bokeh draw:
`ctx.globalAlpha = p.alpha * brightness` (raw brightness). -/
def bokehDrawAlpha (b a : ℚ) : ℚ := a * b

/-- Alpha restored after a bokeh draw:
`ctx.globalAlpha = brightness` (raw brightness). -/
def bokehResetAlpha (b : ℚ) : ℚ := b

/-! ### Helper lemmas -/

/-- The pass `normalizeLyrics` maps a cons to a cons, updating only the head's
duration and recursing on the tail. -/
theorem normalizeLyrics_cons (a : LyricLine) (rest : List LyricLine) :
    ∃ x : ℚ, normalizeLyrics (a :: rest) =
      ⟨a.time, a.text, some x⟩ :: normalizeLyrics rest := by
  cases rest with
  | nil => exact ⟨jsOrDefault a.duration 5, rfl⟩
  | cons b rs => exact ⟨normDur a.time b.time, rfl⟩

/-- The pass `normalizeLyrics` preserves list length. -/
theorem normalizeLyrics_length (L : List LyricLine) :
    (normalizeLyrics L).length = L.length := by
  induction L with
  | nil => rfl
  | cons a rest ih =>
      obtain ⟨x, hx⟩ := normalizeLyrics_cons a rest
      simp [hx, ih]

/-- The value `line.duration || v` is never zero when `v` is not. -/
theorem jsOrDefault_ne_zero (d : Option ℚ) (v : ℚ) (hv : v ≠ 0) :
    jsOrDefault d v ≠ 0 := by
  cases d with
  | none => simpa [jsOrDefault] using hv
  | some x =>
      by_cases hx : x = 0 <;> simp [jsOrDefault, hx, hv]

/-- Applying the JS default twice changes nothing when the default is
nonzero. -/
theorem jsOrDefault_idem (d : Option ℚ) (v : ℚ) (hv : v ≠ 0) :
    jsOrDefault (some (jsOrDefault d v)) v = jsOrDefault d v := by
  have h := jsOrDefault_ne_zero d v hv
  show (if jsOrDefault d v = 0 then v else jsOrDefault d v) = jsOrDefault d v
  rw [if_neg h]

/-- Unfolding `normalizeLyrics` on a list with at least two lines. -/
theorem normalizeLyrics_cons_cons (a b : LyricLine) (rs : List LyricLine) :
    normalizeLyrics (a :: b :: rs) =
      ⟨a.time, a.text, some (normDur a.time b.time)⟩ :: normalizeLyrics (b :: rs) := rfl

/-- Indexing past a cons shifts the index. -/
theorem lineAt_cons_succ (a : LyricLine) (M : List LyricLine) (j : ℕ) :
    lineAt (a :: M) (j + 1) = lineAt M j := rfl

/-- Duration lookup past a cons shifts the index. -/
theorem durAt_cons_succ (a : LyricLine) (M : List LyricLine) (j : ℕ) :
    durAt (a :: M) (j + 1) = durAt M j := rfl

/-- Start-time lookup past a cons shifts the index. -/
theorem timeAt_cons_succ (a : LyricLine) (M : List LyricLine) (j : ℕ) :
    timeAt (a :: M) (j + 1) = timeAt M j := rfl

/-- Normalization preserves every start time. -/
theorem normalize_timeAt (L : List LyricLine) : ∀ i : ℕ,
    timeAt (normalizeLyrics L) i = timeAt L i := by
  induction L with
  | nil => intro i; rfl
  | cons a rest ih =>
      obtain ⟨x, hx⟩ := normalizeLyrics_cons a rest
      intro i
      cases i with
      | zero => rw [hx]; rfl
      | succ j => rw [hx]; exact ih j

/-- The search `jsFindIndex` never returns anything below `-1`. -/
theorem jsFindIndex_ge_neg_one (p : LyricLine → Bool) (M : List LyricLine) :
    -1 ≤ jsFindIndex p M := by
  induction M with
  | nil => simp [jsFindIndex]
  | cons a ls ih =>
      simp only [jsFindIndex]
      split
      · omega
      · split
        · omega
        · omega

/-- The search `jsFindIndex` returns `-1` exactly when no element matches. -/
theorem jsFindIndex_eq_neg_one_iff (p : LyricLine → Bool) (M : List LyricLine) :
    jsFindIndex p M = -1 ↔ ∀ l ∈ M, p l = false := by
  induction M with
  | nil => simp [jsFindIndex]
  | cons a ls ih =>
      by_cases hpa : p a
      · simp [jsFindIndex, hpa]
      · by_cases hrec : jsFindIndex p ls = -1
        · have htail := ih.mp hrec
          simp [jsFindIndex, hpa, hrec]
          exact htail
        · have hge : -1 ≤ jsFindIndex p ls := jsFindIndex_ge_neg_one p ls
          constructor
          · intro habs
            exfalso
            have h1 : jsFindIndex p ls + 1 = -1 := by
              simpa [jsFindIndex, hpa, hrec] using habs
            omega
          · intro hall
            exfalso
            exact hrec (ih.mpr fun l hl => hall l (List.mem_cons_of_mem a hl))

/-- A nonnegative `jsFindIndex` result is the first matching index. -/
theorem jsFindIndex_spec (p : LyricLine → Bool) (M : List LyricLine) : ∀ k : ℕ,
    jsFindIndex p M = (k : ℤ) →
    k < M.length ∧ p (lineAt M k) = true ∧ ∀ j < k, p (lineAt M j) = false := by
  induction M with
  | nil =>
      intro k h
      exfalso
      rw [show jsFindIndex p [] = -1 from rfl] at h
      omega
  | cons a ls ih =>
      intro k h
      by_cases hpa : p a
      · have h0 : (0 : ℤ) = (k : ℤ) := by simpa [jsFindIndex, hpa] using h
        have hk : k = 0 := by omega
        subst hk
        refine ⟨by simp, by simpa [lineAt] using hpa, ?_⟩
        intro j hj
        exact absurd hj (Nat.not_lt_zero j)
      · by_cases hrec : jsFindIndex p ls = -1
        · exfalso
          simp [jsFindIndex, hpa, hrec] at h
        · have hge : -1 ≤ jsFindIndex p ls := jsFindIndex_ge_neg_one p ls
          have h' : jsFindIndex p ls + 1 = (k : ℤ) := by
            simpa [jsFindIndex, hpa, hrec] using h
          obtain ⟨k', rfl⟩ : ∃ k', k = k' + 1 := ⟨k - 1, by omega⟩
          have hrec' : jsFindIndex p ls = (k' : ℤ) := by push_cast at h' ⊢; omega
          obtain ⟨hlen, hpk, hprev⟩ := ih k' hrec'
          refine ⟨by simpa using Nat.succ_lt_succ hlen, hpk, ?_⟩
          intro j hj
          cases j with
          | zero => simpa [lineAt] using hpa
          | succ j' => exact hprev j' (by omega)

/-! ### Claim theorems -/

/-- Claim C4: for an input of exactly two lyric lines at t=0 and t=15,
the gap-insertion pass produces exactly three lines: the first at time
0 with duration 13, a synthetic "•••" line at time 13 with duration 2,
and the second original line (same time and text) at time 15. -/
theorem c4_gap_insertion (s1 s2 : String) :
    insertGaps [⟨0, s1⟩, ⟨15, s2⟩] =
      [⟨0, s1, some 13⟩, ⟨13, "•••", some 2⟩, ⟨15, s2, some 5⟩] := by
  norm_num [insertGaps]

/-- Claim C8: `normalizeLyrics` preserves everything except durations:
it returns a list of the same length in which line `i` has exactly the
same time and text as input line `i`. -/
theorem c8_frame_preservation (L : List LyricLine) :
    (normalizeLyrics L).length = L.length ∧
    (normalizeLyrics L).map (fun l => (l.time, l.text)) =
      L.map (fun l => (l.time, l.text)) := by
  refine ⟨normalizeLyrics_length L, ?_⟩
  induction L with
  | nil => rfl
  | cons a rest ih =>
      obtain ⟨x, hx⟩ := normalizeLyrics_cons a rest
      simp [hx, ih]

/-- Claim C6: the sync-engine normalization pass is idempotent:
`normalizeLyrics (normalizeLyrics L) = normalizeLyrics L`. -/
theorem c6_normalize_idempotent (L : List LyricLine) :
    normalizeLyrics (normalizeLyrics L) = normalizeLyrics L := by
  induction L with
  | nil => rfl
  | cons a rest ih =>
      cases rest with
      | nil =>
          simp [normalizeLyrics, jsOrDefault_idem a.duration 5 (by norm_num)]
      | cons b rs =>
          obtain ⟨x, hx⟩ := normalizeLyrics_cons b rs
          simp only [normalizeLyrics]
          rw [hx]
          simp only [normalizeLyrics]
          rw [← hx, ih]

/-- Claim C10: the degenerate-gap guard of `normalizeLyrics` triggers
for every non-last line whose gap to the next start is at most 0.1
seconds (including small positive gaps): any such line's duration is
replaced by exactly 2.0 seconds. -/
theorem c10_min_duration_guard (L : List LyricLine) :
    ∀ i : ℕ, i + 1 < L.length →
      timeAt L (i + 1) - timeAt L i ≤ 1/10 →
      durAt (normalizeLyrics L) i = 2 := by
  induction L with
  | nil => intro i h _; simp at h
  | cons a rest ih =>
      cases rest with
      | nil => intro i h _; simp at h
      | cons b rs =>
          intro i h hgap
          cases i with
          | zero =>
              have hg : b.time - a.time ≤ 1/10 := hgap
              show (if b.time - a.time ≤ 1/10 then (2 : ℚ) else b.time - a.time) = 2
              rw [if_pos hg]
          | succ j =>
              have h' : j + 1 < (b :: rs).length := by
                simpa [Nat.succ_lt_succ_iff] using h
              have hg' : timeAt (b :: rs) (j + 1) - timeAt (b :: rs) j ≤ 1/10 := hgap
              exact ih j h' hg'

/-- Witness for C10 at the two-line list with the small positive gap
0.05s: the first line's normalized duration is exactly 2. -/
theorem c10_min_duration_guard_witness :
    (0 + 1 < ([⟨0, "a", none⟩, ⟨1/20, "b", none⟩] : List LyricLine).length ∧
      timeAt [⟨0, "a", none⟩, ⟨1/20, "b", none⟩] (0 + 1) -
        timeAt [⟨0, "a", none⟩, ⟨1/20, "b", none⟩] 0 ≤ 1/10) ∧
    durAt (normalizeLyrics [⟨0, "a", none⟩, ⟨1/20, "b", none⟩]) 0 = 2 :=
  ⟨⟨by decide, by norm_num [timeAt, lineAt]⟩,
    c10_min_duration_guard [⟨0, "a", none⟩, ⟨1/20, "b", none⟩] 0 (by decide)
      (by norm_num [timeAt, lineAt])⟩

/-- Claim C1 counterexample: on the two-line input at t=0 and t=0.05
the normalized timeline is not gapless: the first line keeps the
clamped duration 2.0, so start[0] + duration[0] = 2 while start[1] is
0.05. -/
theorem c1_counterexample :
    ¬ (timeAt (normalizeLyrics [⟨0, "a", none⟩, ⟨1/20, "b", none⟩]) 0 +
        durAt (normalizeLyrics [⟨0, "a", none⟩, ⟨1/20, "b", none⟩]) 0 =
        timeAt (normalizeLyrics [⟨0, "a", none⟩, ⟨1/20, "b", none⟩]) 1) := by
  have hN : normalizeLyrics [⟨0, "a", none⟩, ⟨1/20, "b", none⟩] =
      [⟨(0 : ℚ), "a", some 2⟩, ⟨1/20, "b", some 5⟩] := by
    norm_num [normalizeLyrics, normDur, jsOrDefault]
  rw [hN]
  norm_num [timeAt, durAt, lineAt]

/-- Claim C1 (amended): in the normalized sequence every non-last line
has strictly positive duration, and gaplessness
`start[i] + duration[i] = start[i+1]` holds at every index whose raw
gap to the next start exceeds the 0.1s guard threshold; the last
line's duration is strictly positive provided its input duration, when
present, is nonnegative. -/
theorem c1_normalization_amended (L : List LyricLine) :
    ∀ i : ℕ,
      (i + 1 < L.length →
        0 < durAt (normalizeLyrics L) i ∧
        (1/10 < timeAt L (i + 1) - timeAt L i →
          timeAt (normalizeLyrics L) i + durAt (normalizeLyrics L) i =
            timeAt (normalizeLyrics L) (i + 1))) ∧
      (i + 1 = L.length →
        (∀ x, (lineAt L i).duration = some x → 0 ≤ x) →
        0 < durAt (normalizeLyrics L) i) := by
  induction L with
  | nil =>
      intro i
      constructor
      · intro h; simp at h
      · intro h; simp at h
  | cons a rest ih =>
      cases rest with
      | nil =>
          intro i
          cases i with
          | zero =>
              constructor
              · intro h; simp at h
              · intro _ hd
                show 0 < jsOrDefault a.duration 5
                cases hda : a.duration with
                | none => norm_num [jsOrDefault]
                | some x =>
                    have hx0 : 0 ≤ x := hd x hda
                    by_cases hx : x = 0
                    · simp [jsOrDefault, hx]
                    · have hxpos : 0 < x := lt_of_le_of_ne hx0 (Ne.symm hx)
                      simpa [jsOrDefault, hx] using hxpos
          | succ j =>
              constructor
              · intro h
                exfalso
                simp at h
              · intro h
                exfalso
                simp at h
      | cons b rs =>
          intro i
          cases i with
          | zero =>
              constructor
              · intro _
                constructor
                · show 0 < (if b.time - a.time ≤ 1/10 then (2 : ℚ) else b.time - a.time)
                  split
                  · norm_num
                  · next hg => linarith [not_le.mp hg]
                · intro hgap
                  have hg1 : (1 : ℚ)/10 < b.time - a.time := hgap
                  have hg : ¬ (b.time - a.time ≤ 1/10) := not_le.mpr hg1
                  have hdur : durAt (normalizeLyrics (a :: b :: rs)) 0 = b.time - a.time := by
                    show (if b.time - a.time ≤ 1/10 then (2 : ℚ) else b.time - a.time) = _
                    rw [if_neg hg]
                  have ht0 : timeAt (normalizeLyrics (a :: b :: rs)) 0 = a.time := rfl
                  have ht1 : timeAt (normalizeLyrics (a :: b :: rs)) 1 = b.time := by
                    rw [normalize_timeAt]; rfl
                  rw [hdur, ht0, ht1]; ring
              · intro h
                exfalso
                simp only [List.length_cons] at h
                omega
          | succ j =>
              constructor
              · intro h
                have h' : j + 1 < (b :: rs).length := by
                  simp only [List.length_cons] at h ⊢; omega
                have this1 := (ih j).1 h'
                simpa only [normalizeLyrics_cons_cons, durAt_cons_succ,
                  timeAt_cons_succ] using this1
              · intro h hd
                have h' : j + 1 = (b :: rs).length := by
                  simp only [List.length_cons] at h ⊢; omega
                have hd' : ∀ x, (lineAt (b :: rs) j).duration = some x → 0 ≤ x := hd
                have this2 := (ih j).2 h' hd'
                simpa only [normalizeLyrics_cons_cons, durAt_cons_succ] using this2

/-- Witness for the amended C1 on the well-spaced two-line list at t=0
and t=5: the first line's normalized duration is positive and the
timeline is gapless there. -/
theorem c1_normalization_witness :
    (0 + 1 < ([⟨0, "a", none⟩, ⟨5, "b", none⟩] : List LyricLine).length ∧
      1/10 < timeAt [⟨0, "a", none⟩, ⟨5, "b", none⟩] (0 + 1) -
        timeAt [⟨0, "a", none⟩, ⟨5, "b", none⟩] 0) ∧
    (0 < durAt (normalizeLyrics [⟨0, "a", none⟩, ⟨5, "b", none⟩]) 0 ∧
      timeAt (normalizeLyrics [⟨0, "a", none⟩, ⟨5, "b", none⟩]) 0 +
        durAt (normalizeLyrics [⟨0, "a", none⟩, ⟨5, "b", none⟩]) 0 =
        timeAt (normalizeLyrics [⟨0, "a", none⟩, ⟨5, "b", none⟩]) (0 + 1)) := by
  have h1 : 0 + 1 < ([⟨0, "a", none⟩, ⟨5, "b", none⟩] : List LyricLine).length := by
    decide
  have h2 : 1/10 < timeAt [⟨0, "a", none⟩, ⟨5, "b", none⟩] (0 + 1) -
      timeAt [⟨0, "a", none⟩, ⟨5, "b", none⟩] 0 := by
    norm_num [timeAt, lineAt]
  have main := (c1_normalization_amended [⟨0, "a", none⟩, ⟨5, "b", none⟩] 0).1 h1
  exact ⟨⟨h1, h2⟩, main.1, main.2 h2⟩

/-- Claim C5 counterexample: for the normalized form of the sorted
input [{t=0}, {t=0.05, dur=0.01}] and effective time T=1, T is at or
past the last line's start + duration (0.06), yet the active index is
0 (the first line's clamped 2.0s interval still contains T), not
"none". -/
theorem c5_counterexample :
    activeIndexZ [⟨0, "a", none⟩, ⟨1/20, "b", some (1/100)⟩] 1 = 0 ∧
    timeAt (normalizeLyrics [⟨0, "a", none⟩, ⟨1/20, "b", some (1/100)⟩]) 1 +
        durAt (normalizeLyrics [⟨0, "a", none⟩, ⟨1/20, "b", some (1/100)⟩]) 1 ≤ 1 := by
  have hN : normalizeLyrics [⟨0, "a", none⟩, ⟨1/20, "b", some (1/100)⟩] =
      [⟨(0 : ℚ), "a", some 2⟩, ⟨1/20, "b", some (1/100)⟩] := by
    norm_num [normalizeLyrics, normDur, jsOrDefault]
  constructor
  · show jsFindIndex (lineActive 1)
        (normalizeLyrics [⟨0, "a", none⟩, ⟨1/20, "b", some (1/100)⟩]) = 0
    rw [hN]
    norm_num [jsFindIndex, lineActive, jsOrDefault]
  · rw [hN]
    norm_num [timeAt, durAt, lineAt]

/-- Claim C5 (amended): the active line is the first (lowest-index)
line of the normalized sequence whose interval
`[start, start + duration)` contains T, and it is none exactly when no
line's interval contains T (for sorted input this covers every T
before the first start, but a clamped 2.0s duration can keep a line
active past the last line's start + duration); in particular for lines
[{0,"a",dur 5},{5,"b",dur 5}] and T = 6.0 the active index is 1 and
line 0's distance is 1. -/
theorem c5_active_line_amended :
    (∀ (L : List LyricLine) (T : ℚ) (k : ℕ),
        activeIndexZ L T = (k : ℤ) →
        k < (normalizeLyrics L).length ∧
        lineActive T (lineAt (normalizeLyrics L) k) = true ∧
        ∀ j < k, lineActive T (lineAt (normalizeLyrics L) j) = false) ∧
    (∀ (L : List LyricLine) (T : ℚ),
        activeIndexZ L T = -1 ↔ ∀ l ∈ normalizeLyrics L, lineActive T l = false) ∧
    (activeIndexZ [⟨0, "a", some 5⟩, ⟨5, "b", some 5⟩] 6 = 1 ∧
      distanceOf 0 (activeIndexZ [⟨0, "a", some 5⟩, ⟨5, "b", some 5⟩] 6) = 1) := by
  have hN : normalizeLyrics [⟨0, "a", some 5⟩, ⟨5, "b", some 5⟩] =
      [⟨(0 : ℚ), "a", some 5⟩, ⟨5, "b", some 5⟩] := by
    norm_num [normalizeLyrics, normDur, jsOrDefault]
  have hidx : activeIndexZ [⟨0, "a", some 5⟩, ⟨5, "b", some 5⟩] 6 = 1 := by
    show jsFindIndex (lineActive 6)
        (normalizeLyrics [⟨0, "a", some 5⟩, ⟨5, "b", some 5⟩]) = 1
    rw [hN]
    norm_num [jsFindIndex, lineActive, jsOrDefault]
  refine ⟨?_, ?_, ?_, ?_⟩
  · intro L T k h
    exact jsFindIndex_spec (lineActive T) (normalizeLyrics L) k h
  · intro L T
    exact jsFindIndex_eq_neg_one_iff (lineActive T) (normalizeLyrics L)
  · exact hidx
  · rw [hidx]
    norm_num [distanceOf]

/-- Witness for the amended C5: at the two-line demo list and T=6 the
returned index 1 is indeed the first line whose interval contains 6. -/
theorem c5_active_line_witness :
    activeIndexZ [⟨0, "a", some 5⟩, ⟨5, "b", some 5⟩] 6 = ((1 : ℕ) : ℤ) ∧
    (1 < (normalizeLyrics [⟨0, "a", some 5⟩, ⟨5, "b", some 5⟩]).length ∧
      lineActive 6 (lineAt (normalizeLyrics [⟨0, "a", some 5⟩, ⟨5, "b", some 5⟩]) 1) =
        true ∧
      ∀ j < 1, lineActive 6
        (lineAt (normalizeLyrics [⟨0, "a", some 5⟩, ⟨5, "b", some 5⟩]) j) = false) := by
  have hN : normalizeLyrics [⟨0, "a", some 5⟩, ⟨5, "b", some 5⟩] =
      [⟨(0 : ℚ), "a", some 5⟩, ⟨5, "b", some 5⟩] := by
    norm_num [normalizeLyrics, normDur, jsOrDefault]
  have h : activeIndexZ [⟨0, "a", some 5⟩, ⟨5, "b", some 5⟩] 6 = ((1 : ℕ) : ℤ) := by
    show jsFindIndex (lineActive 6)
        (normalizeLyrics [⟨0, "a", some 5⟩, ⟨5, "b", some 5⟩]) = ((1 : ℕ) : ℤ)
    rw [hN]
    norm_num [jsFindIndex, lineActive, jsOrDefault]
  exact ⟨h, c5_active_line_amended.1 [⟨0, "a", some 5⟩, ⟨5, "b", some 5⟩] 6 1 h⟩

/-- Claim C2 counterexample: for H = 100 at frame k = 2 the stored
peak is 89.275 (the 0.5 subtraction of frame 1 is itself multiplied by
0.95 at frame 2), while the claimed formula
`max(0, H·0.95^k − 0.5k)` gives 89.25. -/
theorem c2_counterexample :
    ¬ (peakSeq 100 2 = max 0 (100 * (19/20)^2 - (1/2) * 2)) := by
  have h0 : peakSeq 100 0 = 100 := by norm_num [peakSeq, peakStep]
  have h1 : peakSeq 100 1 = 189/2 := by
    show peakStep 0 (peakSeq 100 0) = 189/2
    rw [h0]
    norm_num [peakStep]
  have h2 : peakSeq 100 2 = 3571/40 := by
    show peakStep 0 (peakSeq 100 1) = 3571/40
    rw [h1]
    norm_num [peakStep]
  rw [h2]
  norm_num [max_def]

/-- Claim C2 (amended): for a bar of height H > 0 at frame 0 and 0
afterwards, the stored peak at frame k equals
`(H + 10)·0.95^k − 10` (= H·0.95^k − 10·(1 − 0.95^k): the subtractive
0.5 compounds through the 0.95 multiplier as a geometric sum, not as
0.5k) as long as that expression is still nonnegative; once the stored
value goes negative, the next frame resets it to 0 and the following
frame returns to −0.5, alternating, rather than clipping at 0. -/
theorem c2_peak_decay_amended (H : ℚ) (hH : 0 < H) (k : ℕ) :
    ((10 : ℚ) ≤ (H + 10) * (19/20)^k →
      peakSeq H k = (H + 10) * (19/20)^k - 10) ∧
    (peakSeq H k < 0 → peakSeq H (k+1) = 0 ∧ peakSeq H (k+2) = -(1/2)) := by
  constructor
  · induction k with
    | zero =>
        intro _
        show peakStep H 0 = _
        rw [peakStep, if_pos hH]
        ring
    | succ n ihn =>
        intro hk
        have hpos : (0 : ℚ) < H + 10 := by linarith
        have hstep : ((19 : ℚ)/20)^(n+1) ≤ (19/20)^n :=
          pow_le_pow_of_le_one (by norm_num) (by norm_num) (Nat.le_succ n)
        have hn : (10 : ℚ) ≤ (H + 10) * (19/20)^n :=
          le_trans hk (mul_le_mul_of_nonneg_left hstep (le_of_lt hpos))
        have hprev := ihn hn
        have hnonneg : 0 ≤ peakSeq H n := by rw [hprev]; linarith
        show peakStep 0 (peakSeq H n) = _
        rw [peakStep, if_neg (not_lt.mpr hnonneg), hprev]
        ring
  · intro hneg
    have hz : peakSeq H (k+1) = 0 := by
      show peakStep 0 (peakSeq H k) = 0
      rw [peakStep, if_pos hneg]
    refine ⟨hz, ?_⟩
    show peakStep 0 (peakSeq H (k+1)) = -(1/2)
    rw [hz]
    norm_num [peakStep]

/-- Witness for the amended C2 at H = 100, k = 1: the stored peak is
110·0.95 − 10 = 94.5. -/
theorem c2_peak_decay_witness :
    ((0 : ℚ) < 100 ∧ (10 : ℚ) ≤ (100 + 10) * (19/20)^1) ∧
    peakSeq 100 1 = (100 + 10) * (19/20)^1 - 10 :=
  ⟨⟨by norm_num, by norm_num⟩,
    (c2_peak_decay_amended 100 (by norm_num) 1).1 (by norm_num)⟩

/-- Claim C3 counterexample: brightness 1.2 lies in [0.1, 1.5], yet a
firework particle of alpha 0.5 is drawn with global alpha
0.5·1.2 = 0.6, not 0.5·min(1, max(0, 1.2)) = 0.5: the particle draw
multiplies the raw, unclamped brightness. -/
theorem c3_counterexample :
    ((1 : ℚ)/10 ≤ 6/5 ∧ (6 : ℚ)/5 ≤ 3/2) ∧
    fireworkDrawAlpha (6/5) (1/2) ≠ (1/2) * clampBrightness (6/5) := by
  refine ⟨⟨by norm_num, by norm_num⟩, ?_⟩
  norm_num [fireworkDrawAlpha, clampBrightness, min_def, max_def]

/-- Claim C3 (amended): the tick-initial compositing alpha is
min(1, max(0, brightness)), but the firework-particle and bokeh draws
multiply the raw brightness into their per-particle alpha and reset
the global alpha to the raw brightness; hence every draw call's
brightness factor equals the clamped brightness exactly on the range
[0.1, 1], where clamping is the identity. -/
theorem c3_brightness_amended (b : ℚ) (h1 : 1/10 ≤ b) (h2 : b ≤ 1) :
    clampBrightness b = b ∧
    (∀ a : ℚ, fireworkDrawAlpha b a = a * clampBrightness b ∧
      bokehDrawAlpha b a = a * clampBrightness b) ∧
    fireworkResetAlpha b = clampBrightness b ∧
    bokehResetAlpha b = clampBrightness b := by
  have h0 : (0 : ℚ) ≤ b := by linarith
  have hc : clampBrightness b = b := by
    rw [clampBrightness, max_eq_right h0, min_eq_right h2]
  refine ⟨hc, fun a => ⟨?_, ?_⟩, ?_, ?_⟩ <;>
    simp [fireworkDrawAlpha, bokehDrawAlpha, fireworkResetAlpha,
      bokehResetAlpha, hc]

/-- Witness for the amended C3 at brightness 0.5: clamping is the
identity and every draw call's brightness factor is 0.5. -/
theorem c3_brightness_witness :
    ((1 : ℚ)/10 ≤ 1/2 ∧ (1 : ℚ)/2 ≤ 1) ∧
    (clampBrightness (1/2) = 1/2 ∧
      (∀ a : ℚ, fireworkDrawAlpha (1/2) a = a * clampBrightness (1/2) ∧
        bokehDrawAlpha (1/2) a = a * clampBrightness (1/2)) ∧
      fireworkResetAlpha (1/2) = clampBrightness (1/2) ∧
      bokehResetAlpha (1/2) = clampBrightness (1/2)) :=
  ⟨⟨by norm_num, by norm_num⟩,
    c3_brightness_amended (1/2) (by norm_num) (by norm_num)⟩

/-- Claim C7: for the active line, with
fillDuration = max(0.5, duration·0.85): whenever elapsed ≥
fillDuration every character's fill percent is 1, and whenever
elapsed = 0 every character's fill percent is 0. -/
theorem c7_fill_clamp (T time : ℚ) (d : Option ℚ) (n i : ℕ) (hin : i < n) :
    (fillDurationOf d ≤ elapsedOf T time → charFillPercent T time d n i = 1) ∧
    (elapsedOf T time = 0 → charFillPercent T time d n i = 0) := by
  have hfd : 0 < fillDurationOf d :=
    lt_of_lt_of_le (by norm_num) (le_max_left (1/2) (jsOrDefault d 3 * (17/20)))
  constructor
  · intro h
    have hone : (1 : ℚ) ≤ elapsedOf T time / fillDurationOf d :=
      (one_le_div hfd).mpr h
    have hprog : progressOf T time d = 1 := by
      rw [progressOf]
      exact min_eq_left hone
    have h1 : (1 : ℚ) ≤ (n : ℚ) - i := by
      have hcast : (i : ℚ) + 1 ≤ n := by exact_mod_cast hin
      linarith
    rw [charFillPercent, hprog, one_mul, min_eq_left h1]
    norm_num
  · intro h
    have hprog : progressOf T time d = 0 := by
      rw [progressOf, h, zero_div]
      exact min_eq_right (by norm_num)
    have hi0 : (0 : ℚ) ≤ i := Nat.cast_nonneg i
    rw [charFillPercent, hprog, zero_mul, zero_sub,
      min_eq_right (by linarith : -(i : ℚ) ≤ 1),
      max_eq_left (by linarith : -(i : ℚ) ≤ 0)]

/-- Witness for C7 at T = 10, line start 0, duration 1, a 3-character
line: elapsed 10 exceeds fillDuration 0.85 and the first character's
fill percent is 1. -/
theorem c7_fill_clamp_witness :
    (0 < 3 ∧ fillDurationOf (some 1) ≤ elapsedOf 10 0) ∧
    charFillPercent 10 0 (some 1) 3 0 = 1 := by
  have hfd : fillDurationOf (some 1) ≤ elapsedOf 10 0 := by
    norm_num [fillDurationOf, elapsedOf, jsOrDefault, max_def]
  exact ⟨⟨by norm_num, hfd⟩, (c7_fill_clamp 10 0 (some 1) 3 0 (by norm_num)).1 hfd⟩

/-- Claim C9: when no line's interval contains the effective time
(activeIndex is -1), every line i is classified not-past with distance
i + 1, and is rendered with the non-active styling: blur
min(8, (i+1)·1.5), which is positive, and a scale below 1. -/
theorem c9_no_active_styling (L : List LyricLine) (T : ℚ)
    (h : activeIndexZ L T = -1) (i : ℕ) :
    isPastOf i (activeIndexZ L T) = false ∧
    isActiveOf i (activeIndexZ L T) = false ∧
    distanceOf i (activeIndexZ L T) = (i : ℤ) + 1 ∧
    blurOf (isActiveOf i (activeIndexZ L T)) (distanceOf i (activeIndexZ L T)) =
      min 8 (((i : ℚ) + 1) * (3/2)) ∧
    0 < blurOf (isActiveOf i (activeIndexZ L T)) (distanceOf i (activeIndexZ L T)) ∧
    scaleOf (isActiveOf i (activeIndexZ L T)) (distanceOf i (activeIndexZ L T)) < 1 := by
  rw [h]
  have hpast : isPastOf i (-1 : ℤ) = false := by
    simp only [isPastOf, decide_eq_false_iff_not]
    omega
  have hact : isActiveOf i (-1 : ℤ) = false := by
    simp only [isActiveOf, decide_eq_false_iff_not]
    omega
  have hdist : distanceOf i (-1 : ℤ) = (i : ℤ) + 1 := by
    rw [distanceOf, sub_neg_eq_add]
    exact abs_of_nonneg (by positivity)
  have hcast : (((i : ℤ) + 1 : ℤ) : ℚ) = (i : ℚ) + 1 := by push_cast; ring
  have hblur : blurOf false ((i : ℤ) + 1) = min 8 (((i : ℚ) + 1) * (3/2)) := by
    rw [blurOf, if_neg (by simp), hcast]
  refine ⟨hpast, hact, hdist, ?_, ?_, ?_⟩
  · rw [hact, hdist, hblur]
  · rw [hact, hdist, hblur]
    have hip : (0 : ℚ) < ((i : ℚ) + 1) * (3/2) := by positivity
    exact lt_min (by norm_num) hip
  · rw [hact, hdist, scaleOf, if_neg (by simp), hcast]
    have hi0 : (0 : ℚ) ≤ i := Nat.cast_nonneg i
    have h1 : (17 : ℚ)/20 < 1 := by norm_num
    have h2 : 1 - ((i : ℚ) + 1) * (1/20) < 1 := by nlinarith
    exact max_lt h1 h2

/-- Witness for C9 at the one-line list and T = -1 (before the line
starts): the active index is -1 and line 0 gets future styling with
distance 1. -/
theorem c9_no_active_styling_witness :
    activeIndexZ [⟨0, "a", none⟩] (-1) = -1 ∧
    (isPastOf 0 (activeIndexZ [⟨0, "a", none⟩] (-1)) = false ∧
      isActiveOf 0 (activeIndexZ [⟨0, "a", none⟩] (-1)) = false ∧
      distanceOf 0 (activeIndexZ [⟨0, "a", none⟩] (-1)) = (0 : ℤ) + 1 ∧
      blurOf (isActiveOf 0 (activeIndexZ [⟨0, "a", none⟩] (-1)))
          (distanceOf 0 (activeIndexZ [⟨0, "a", none⟩] (-1))) =
        min 8 (((0 : ℚ) + 1) * (3/2)) ∧
      0 < blurOf (isActiveOf 0 (activeIndexZ [⟨0, "a", none⟩] (-1)))
          (distanceOf 0 (activeIndexZ [⟨0, "a", none⟩] (-1))) ∧
      scaleOf (isActiveOf 0 (activeIndexZ [⟨0, "a", none⟩] (-1)))
          (distanceOf 0 (activeIndexZ [⟨0, "a", none⟩] (-1))) < 1) := by
  have hN : normalizeLyrics [⟨0, "a", none⟩] = [⟨(0 : ℚ), "a", some 5⟩] := by
    norm_num [normalizeLyrics, jsOrDefault]
  have h : activeIndexZ [⟨0, "a", none⟩] (-1) = -1 := by
    show jsFindIndex (lineActive (-1)) (normalizeLyrics [⟨0, "a", none⟩]) = -1
    rw [hN]
    norm_num [jsFindIndex, lineActive, jsOrDefault]
  exact ⟨h, c9_no_active_styling [⟨0, "a", none⟩] (-1) h 0⟩

end MusicPlayer
